import Mathlib

/-!
# Verification of the Women's Health Tracker record store

Shallow embedding of `health_tracker.py` (class `WomensHealthTracker`).

Modelling conventions:
* A Python `datetime` value (always midnight here) is represented by its day
  ordinal: an `Int` counting days since 1970-01-01 in the proleptic Gregorian
  calendar.  `timedelta(days = n)` addition is `Int` addition on ordinals,
  bounded to the supported years 1–9999 (`addDays`); past the bounds CPython
  raises `OverflowError`, modelled as `none`.
* `datetime.strptime(s, "%Y-%m-%d")` is `parseDate : String → Option Int`;
  it mirrors the compiled field patterns exactly — the four year digits and
  the second digit of days 10–29 may be any Unicode decimal digit (category
  Nd), month digits and the rest are ASCII, a space-padded day is accepted —
  followed by the `date` constructor's calendar validation, and returns the
  ordinal.
* `str(dt.date())` is `formatOrdinal : Int → String` (zero-padded ISO form).
* The persisted JSON file is modelled at the value level by the `Json`
  inductive; Python's `json.dump`/`json.load` text layer is trusted to
  round-trip JSON values and is not re-modelled.
* Each method of the class becomes `World → Option (World × String)`, where
  `World` carries the in-memory store and the persisted file image, and a
  `none` result models an uncaught Python exception.
* Python's stable `sorted(..., key=lambda x: x["date"])` is modelled by a
  stable insertion sort keyed by code-point order on the date string, which
  is exactly Python's `str` comparison.
-/

namespace WomensHealthTracker

/-! ## Calendar arithmetic (the `datetime` / `timedelta` semantics) -/

/-- Gregorian leap-year rule, as in Python's `calendar`/`datetime`. -/
def isLeapYear (y : Nat) : Bool :=
  y % 4 == 0 && (y % 100 != 0 || y % 400 == 0)

/-- Days in a month, as validated by `datetime.date`. -/
def daysInMonth (y m : Nat) : Nat :=
  if m = 2 then (if isLeapYear y then 29 else 28)
  else if m = 4 ∨ m = 6 ∨ m = 9 ∨ m = 11 then 30
  else 31

/-- Day ordinal (days since 1970-01-01, proleptic Gregorian) of a civil date.
Follows the standard era-based algorithm; all divisions are floor divisions
(`Int.ediv` with positive divisors). -/
def days_from_civil (y m d : Int) : Int :=
  let y' := y - (if m ≤ 2 then 1 else 0)
  let era := Int.ediv y' 400
  let yoe := y' - era * 400
  let doy := Int.ediv (153 * (m + (if m > 2 then -3 else 9)) + 2) 5 + d - 1
  let doe := yoe * 365 + Int.ediv yoe 4 - Int.ediv yoe 100 + doy
  era * 146097 + doe - 719468

/-- Civil date `(year, month, day)` of a day ordinal; inverse of
`days_from_civil`. -/
def civil_from_days (zz : Int) : Int × Int × Int :=
  let z := zz + 719468
  let era := Int.ediv z 146097
  let doe := z - era * 146097
  let yoe := Int.ediv (doe - Int.ediv doe 1460 + Int.ediv doe 36524 - Int.ediv doe 146096) 365
  let y := yoe + era * 400
  let doy := doe - (365 * yoe + Int.ediv yoe 4 - Int.ediv yoe 100)
  let mp := Int.ediv (5 * doy + 2) 153
  let d := doy - Int.ediv (153 * mp + 2) 5 + 1
  let m := mp + (if mp < 10 then 3 else -9)
  (y + (if m ≤ 2 then 1 else 0), m, d)

/-! ## Date strings -/

/-- The decimal digits of `n`, left-padded with `'0'` to width `w`
(exact for `n < 10 ^ w`), as `str.zfill` / `date.isoformat` produce. -/
def padDigits : Nat → Nat → List Char
  | 0, _ => []
  | w + 1, n => padDigits w (n / 10) ++ [Char.ofNat (48 + n % 10)]

/-- The ISO `YYYY-MM-DD` character list of a civil date. -/
def dateChars (y m d : Nat) : List Char :=
  padDigits 4 y ++ '-' :: (padDigits 2 m ++ '-' :: padDigits 2 d)

/-- The ISO `YYYY-MM-DD` string of a civil date. -/
def dateString (y m d : Nat) : String :=
  ⟨dateChars y m d⟩

/-- `str(dt.date())` on the datetime with ordinal `z`. -/
def formatOrdinal (z : Int) : String :=
  let c := civil_from_days z
  dateString c.1.toNat c.2.1.toNat c.2.2.toNat

/-- First and last code point of every run of Unicode decimal digits
(category Nd), the exact character set CPython's `re` pattern `\d` matches
and `int()` converts; within a run the digit value is the offset modulo 10.
Table generated from `unicodedata` of CPython 3.11. -/
def ndRanges : List (Nat × Nat) :=
  [(0x30, 0x39), (0x660, 0x669), (0x6f0, 0x6f9), (0x7c0, 0x7c9),
   (0x966, 0x96f), (0x9e6, 0x9ef), (0xa66, 0xa6f), (0xae6, 0xaef),
   (0xb66, 0xb6f), (0xbe6, 0xbef), (0xc66, 0xc6f), (0xce6, 0xcef),
   (0xd66, 0xd6f), (0xde6, 0xdef), (0xe50, 0xe59), (0xed0, 0xed9),
   (0xf20, 0xf29), (0x1040, 0x1049), (0x1090, 0x1099), (0x17e0, 0x17e9),
   (0x1810, 0x1819), (0x1946, 0x194f), (0x19d0, 0x19d9), (0x1a80, 0x1a89),
   (0x1a90, 0x1a99), (0x1b50, 0x1b59), (0x1bb0, 0x1bb9), (0x1c40, 0x1c49),
   (0x1c50, 0x1c59), (0xa620, 0xa629), (0xa8d0, 0xa8d9), (0xa900, 0xa909),
   (0xa9d0, 0xa9d9), (0xa9f0, 0xa9f9), (0xaa50, 0xaa59), (0xabf0, 0xabf9),
   (0xff10, 0xff19), (0x104a0, 0x104a9), (0x10d30, 0x10d39),
   (0x11066, 0x1106f), (0x110f0, 0x110f9), (0x11136, 0x1113f),
   (0x111d0, 0x111d9), (0x112f0, 0x112f9), (0x11450, 0x11459),
   (0x114d0, 0x114d9), (0x11650, 0x11659), (0x116c0, 0x116c9),
   (0x11730, 0x11739), (0x118e0, 0x118e9), (0x11950, 0x11959),
   (0x11c50, 0x11c59), (0x11d50, 0x11d59), (0x11da0, 0x11da9),
   (0x16a60, 0x16a69), (0x16ac0, 0x16ac9), (0x16b50, 0x16b59),
   (0x1d7ce, 0x1d7ff), (0x1e140, 0x1e149), (0x1e2f0, 0x1e2f9),
   (0x1e950, 0x1e959), (0x1fbf0, 0x1fbf9)]

/-- Decimal value of a Unicode digit (category Nd); `none` for any other
character.  This is what `\d` accepts and `int()` converts in strptime. -/
def digitVal (c : Char) : Option Nat :=
  (ndRanges.find? fun p => decide (p.1 ≤ c.toNat) && decide (c.toNat ≤ p.2)).map
    fun p => (c.toNat - p.1) % 10

/-- ASCII `[1-9]`, the literal nonzero-digit ranges of the patterns. -/
def isAsciiPos (c : Char) : Bool :=
  49 ≤ c.toNat && c.toNat ≤ 57

/-- `int()` on a group of Unicode digits: positional decimal value,
`none` when some character is not a decimal digit. -/
def digitsVal (l : List Char) : Option Nat :=
  go 0 l
where
  go : Nat → List Char → Option Nat
    | acc, [] => some acc
    | acc, c :: cs =>
      match digitVal c with
      | none => none
      | some v => go (10 * acc + v) cs

/-- The `%Y` group `\d\d\d\d`: exactly four Unicode digits. -/
def yearVal (l : List Char) : Option Nat :=
  if l.length = 4 then digitsVal l else none

/-- The `%m` group `1[0-2]|0[1-9]|[1-9]` — ASCII characters only. -/
def monthVal : List Char → Option Nat
  | [c] => if isAsciiPos c then some (c.toNat - 48) else none
  | [c1, c2] =>
    if c1 = '1' then
      if c2 = '0' then some 10
      else if c2 = '1' then some 11
      else if c2 = '2' then some 12
      else none
    else if c1 = '0' then
      if isAsciiPos c2 then some (c2.toNat - 48) else none
    else none
  | _ => none

/-- The `%d` group `3[0-1]|[1-2]\d|0[1-9]|[1-9]| [1-9]`: the second digit of
days 10–29 may be any Unicode digit, and a space-padded single day is
accepted; everything else is ASCII. -/
def dayVal : List Char → Option Nat
  | [c] => if isAsciiPos c then some (c.toNat - 48) else none
  | [c1, c2] =>
    if c1 = '3' then
      if c2 = '0' then some 30
      else if c2 = '1' then some 31
      else none
    else if c1 = '1' ∨ c1 = '2' then
      match digitVal c2 with
      | none => none
      | some v => some (10 * (c1.toNat - 48) + v)
    else if c1 = '0' ∨ c1 = ' ' then
      if isAsciiPos c2 then some (c2.toNat - 48) else none
    else none
  | _ => none

/-- Split a character list at every `'-'`, keeping empty parts: the effect of
matching the literal `-` separators of the `%Y-%m-%d` pattern. -/
def splitDash : List Char → List (List Char)
  | [] => [[]]
  | c :: cs =>
    let r := splitDash cs
    if c = '-' then [] :: r
    else
      match r with
      | [] => [[c]]
      | p :: ps => (c :: p) :: ps

/-- `datetime.strptime(s, "%Y-%m-%d")`, returning the day ordinal of the
parsed date, or `none` where CPython raises `ValueError`: the whole string
must be consumed by `%Y-%m-%d` (the groups as above — the group patterns
already force month 1–12 and day ≥ 1), and the `date` constructor then
validates year ≥ 1 and day ≤ days in month (year ≤ 9999 is forced by the
four-digit group). -/
def parseDate (s : String) : Option Int :=
  match splitDash s.data with
  | [ys, ms, ds] =>
    match yearVal ys, monthVal ms, dayVal ds with
    | some y, some m, some d =>
      if 1 ≤ y ∧ d ≤ daysInMonth y m then some (days_from_civil y m d)
      else none
    | _, _, _ => none
  | _ => none

example : days_from_civil 1970 1 1 = 0 := by decide
example : civil_from_days 0 = (1970, 1, 1) := by decide
example : parseDate "2024-01-01" = some 19723 := by decide
example : civil_from_days 19723 = (2024, 1, 1) := by decide
example : formatOrdinal (19723 + 28) = "2024-01-29" := by decide
example : formatOrdinal (19723 + 28 - 5) = "2024-01-24" := by decide
example : parseDate "2024-13-40" = none := by decide
example : parseDate "2024-2-30" = none := by decide
example : parseDate "2024-2-29" = some (days_from_civil 2024 2 29) := by decide
example : parseDate "2023-2-29" = none := by decide
example : parseDate "" = none := by decide
example : parseDate "0000-01-01" = none := by decide
example : formatOrdinal (days_from_civil 999 1 1) = "0999-01-01" := by decide
example : parseDate "٢٠٢٤-01-01" = some 19723 := by decide
example : parseDate "２０２４-01-01" = some 19723 := by decide
example : parseDate "2024-01-1٣" = some (days_from_civil 2024 1 13) := by decide
example : parseDate "2024-01-2５" = some (days_from_civil 2024 1 25) := by decide
example : parseDate "2024-٠1-01" = none := by decide
example : parseDate "2024-1٠-01" = none := by decide
example : parseDate "2024-01-3٠" = none := by decide
example : parseDate "2024-01-٢٣" = none := by decide
example : parseDate "2024-01- 5" = some (days_from_civil 2024 1 5) := by decide

/-! ## The supported datetime range

CPython's `datetime` covers years 1–9999; `datetime ± timedelta` raises
`OverflowError` outside it.  The operations below model that raise as
`none`, so `formatOrdinal` is only ever applied to in-range ordinals
(parse results are in range by construction, and `add_symptom`'s clock
value is in range in any real run). -/

/-- Day ordinal of `date.min` (0001-01-01). -/
def minOrdinal : Int := -719162

/-- Day ordinal of `date.max` (9999-12-31). -/
def maxOrdinal : Int := 2932896

/-- `datetime + timedelta(days = n)` (and subtraction, via negative `n`):
exact day arithmetic, `none` where CPython raises `OverflowError` because
the result leaves the supported range. -/
def addDays (z n : Int) : Option Int :=
  let r := z + n
  if minOrdinal ≤ r ∧ r ≤ maxOrdinal then some r else none

example : days_from_civil 1 1 1 = minOrdinal := by decide
example : days_from_civil 9999 12 31 = maxOrdinal := by decide
example : addDays 19723 28 = some 19751 := by decide
example : addDays 19723 4000000 = none := by decide
example : addDays 19751 (-(1000000 : Int)) = none := by decide

theorem addDays_eq_some (z n : Int)
    (h : minOrdinal ≤ z + n ∧ z + n ≤ maxOrdinal) :
    addDays z n = some (z + n) := by
  show (if minOrdinal ≤ z + n ∧ z + n ≤ maxOrdinal then some (z + n) else none)
    = some (z + n)
  rw [if_pos h]

/-! ## Persisted JSON values -/

/-- JSON values, as far as this program produces or consumes them.
The `json.dump` / `json.load` text layer is trusted to round-trip values. -/
inductive Json where
  | null : Json
  | jnum : Int → Json
  | jstr : String → Json
  | jarr : List Json → Json
  | jobj : List (String × Json) → Json

/-! ## Data model -/

/-- One user's record: the dict created by `register_user` and mutated by the
other operations.  `last_cycle_date` holds the raw string that was stored
(`None` until set); symptom and reminder entries are `(text, date-string)`
pairs in insertion order. -/
structure UserRecord where
  last_cycle_date : Option String
  cycle_length : Int
  symptoms : List (String × String)
  reminders : List (String × String)
deriving DecidableEq

/-- The in-memory store `self.data`: a username-keyed mapping; Python dicts
keep keys in insertion order, so an association list with new keys appended
at the end. -/
abbrev Store := List (String × UserRecord)

/-- Membership / indexing in the store dict (`username in self.data`,
`self.data[username]`). -/
def lookup (u : String) : Store → Option UserRecord
  | [] => none
  | p :: ps => if p.1 = u then some p.2 else lookup u ps

/-- In-place mutation of the record at key `u` (Python mutates the dict's
value object, so the key keeps its position). -/
def setRec (u : String) (r : UserRecord) (s : Store) : Store :=
  s.map fun p => if p.1 = u then (p.1, r) else p

/-- Process state: the in-memory store plus the persisted file image
(`none` when `user_data.json` does not exist yet). -/
structure World where
  data : Store
  file : Option Json

/-! ## Serialization (`save_data` / `load_data`) -/

/-- The JSON object `json.dump` writes for one record (field insertion
order fixed by `register_user`). -/
def encodeRecord (r : UserRecord) : Json :=
  .jobj
    [("last_cycle_date", match r.last_cycle_date with
        | none => .null
        | some s => .jstr s),
     ("cycle_length", .jnum r.cycle_length),
     ("symptoms", .jarr (r.symptoms.map fun p =>
        .jobj [("symptom", .jstr p.1), ("date", .jstr p.2)])),
     ("reminders", .jarr (r.reminders.map fun p =>
        .jobj [("reminder", .jstr p.1), ("date", .jstr p.2)]))]

/-- The JSON object `json.dump` writes for the whole store. -/
def encodeStore (s : Store) : Json :=
  .jobj (s.map fun p => (p.1, encodeRecord p.2))

/-- Read back one `(text, date)` entry of a symptom or reminder array. -/
def decodeEntry (key : String) (j : Json) : Option (String × String) :=
  match j with
  | .jobj [(k1, .jstr a), ("date", .jstr b)] =>
    if k1 = key then some (a, b) else none
  | _ => none

/-- Read back a list of entries. -/
def decodeEntries (key : String) : List Json → Option (List (String × String))
  | [] => some []
  | j :: js =>
    match decodeEntry key j, decodeEntries key js with
    | some p, some ps => some (p :: ps)
    | _, _ => none

/-- Read back one user record from its JSON object. -/
def decodeRecord (j : Json) : Option UserRecord :=
  match j with
  | .jobj [("last_cycle_date", lcd), ("cycle_length", .jnum n),
           ("symptoms", .jarr sy), ("reminders", .jarr re)] =>
    match lcd with
    | .null =>
      match decodeEntries "symptom" sy, decodeEntries "reminder" re with
      | some sy', some re' => some ⟨none, n, sy', re'⟩
      | _, _ => none
    | .jstr s =>
      match decodeEntries "symptom" sy, decodeEntries "reminder" re with
      | some sy', some re' => some ⟨some s, n, sy', re'⟩
      | _, _ => none
    | _ => none
  | _ => none

/-- Read back the store mapping from its JSON object. -/
def decodeStoreEntries : List (String × Json) → Option Store
  | [] => some []
  | (u, j) :: ps =>
    match decodeRecord j, decodeStoreEntries ps with
    | some r, some rs => some ((u, r) :: rs)
    | _, _ => none

/-- Read back a store from a JSON value. -/
def decodeStore (j : Json) : Option Store :=
  match j with
  | .jobj l => decodeStoreEntries l
  | _ => none

/-- `load_data`: no file yields an empty store; an unreadable store also
falls back to an empty one (the corrupted-file branch). -/
def load_data (file : Option Json) : Store :=
  match file with
  | none => []
  | some j => (decodeStore j).getD []

/-- `save_data`: overwrite the file image with the serialized store. -/
def save_data (w : World) : World :=
  { w with file := some (encodeStore w.data) }

/-! ## Messages (the exact strings the source returns) -/

/-- `"Error: User not found."` -/
def userNotFoundMsg : String := "Error: User not found."

/-- `"Error: Invalid date format. Use YYYY-MM-DD."` -/
def invalidDateMsg : String := "Error: Invalid date format. Use YYYY-MM-DD."

/-- `"Error: No cycle details found. Please set your cycle details first."` -/
def noCycleMsg : String :=
  "Error: No cycle details found. Please set your cycle details first."

/-- `"No reminders set."` -/
def noRemindersMsg : String := "No reminders set."

/-- `"No symptoms logged."` -/
def noSymptomsMsg : String := "No symptoms logged."

/-! ## Python falsiness of the stored date -/

/-- `not last_cycle_date` on an optional string: `None` and `""` are falsy. -/
def lcdFalsy : Option String → Bool
  | none => true
  | some s => s = ""

/-- Python's `"\n".join`: interleave newline separators between the lines. -/
def joinLines : List String → String
  | [] => ""
  | [a] => a
  | a :: b :: rest => a ++ "\n" ++ joinLines (b :: rest)

/-! ## The stable sort of `view_reminders` -/

/-- Python string `<=`: lexicographic on code points. -/
def strLe (a b : String) : Bool :=
  go a.data b.data
where
  go : List Char → List Char → Bool
    | [], _ => true
    | _ :: _, [] => false
    | x :: xs, y :: ys =>
      if x.toNat < y.toNat then true
      else if y.toNat < x.toNat then false
      else go xs ys

/-- Insert a reminder entry before the first entry with a `>=` date key:
the insertion step of a stable sort by `x["date"]`. -/
def insRem (x : String × String) : List (String × String) → List (String × String)
  | [] => [x]
  | y :: ys => if strLe x.2 y.2 then x :: y :: ys else y :: insRem x ys

/-- Stable sort by date key: the model of
`sorted(reminders, key=lambda x: x["date"])` (Python's sort is stable, and
all stable sorts by the same key agree). -/
def sortRem : List (String × String) → List (String × String)
  | [] => []
  | x :: xs => insRem x (sortRem xs)

/-! ## The operations -/

/-- `register_user`. -/
def register_user (u : String) (w : World) : Option (World × String) :=
  match lookup u w.data with
  | some _ => some (w, "Error: User '" ++ u ++ "' already exists.")
  | none =>
    let w' := save_data { w with data := w.data ++ [(u, ⟨none, 28, [], []⟩)] }
    some (w', "User '" ++ u ++ "' registered successfully!")

/-- `set_cycle_details` (the `strptime` call sits in a `try`, so a parse
failure is returned as a message, not an exception). -/
def set_cycle_details (u ds : String) (len : Int) (w : World) :
    Option (World × String) :=
  match lookup u w.data with
  | none => some (w, userNotFoundMsg)
  | some rec =>
    match parseDate ds with
    | none => some (w, invalidDateMsg)
    | some _ =>
      let w' := save_data
        { w with data := setRec u { rec with last_cycle_date := some ds, cycle_length := len } w.data }
      some (w', "Cycle details updated for '" ++ u ++ "'.")

/-- `add_symptom`; `today` is the ordinal of `datetime.now().date()`. -/
def add_symptom (today : Int) (u sym : String) (w : World) :
    Option (World × String) :=
  match lookup u w.data with
  | none => some (w, userNotFoundMsg)
  | some rec =>
    let w' := save_data
      { w with data := setRec u { rec with symptoms := rec.symptoms ++ [(sym, formatOrdinal today)] } w.data }
    some (w', "Symptom '" ++ sym ++ "' logged for '" ++ u ++ "'.")

/-- `add_reminder`; an unparseable stored date would raise an uncaught
`ValueError`, and either datetime addition past the supported range an
uncaught `OverflowError` (both `none`). -/
def add_reminder (u r : String) (db : Int) (w : World) :
    Option (World × String) :=
  match lookup u w.data with
  | none => some (w, userNotFoundMsg)
  | some rec =>
    if lcdFalsy rec.last_cycle_date then some (w, noCycleMsg)
    else
      match rec.last_cycle_date with
      | none => some (w, noCycleMsg)
      | some ds =>
        match parseDate ds with
        | none => none
        | some z =>
          match addDays z rec.cycle_length with
          | none => none
          | some nxt =>
            match addDays nxt (-db) with
            | none => none
            | some rd =>
              let dstr := formatOrdinal rd
              let w' := save_data
                { w with data := setRec u { rec with reminders := rec.reminders ++ [(r, dstr)] } w.data }
              some (w', "Reminder '" ++ r ++ "' added for " ++ u ++ " on " ++ dstr ++ ".")

/-- The reminder lines of `view_reminders`, in output order. -/
def reminderLines (l : List (String × String)) : List String :=
  (sortRem l).map fun p => "- " ++ p.1 ++ " on " ++ p.2

/-- `view_reminders` (read-only: the store is returned unchanged, as the
method performs no assignment). -/
def view_reminders (u : String) (w : World) : Option (World × String) :=
  match lookup u w.data with
  | none => some (w, userNotFoundMsg)
  | some rec =>
    if rec.reminders = [] then some (w, noRemindersMsg)
    else some (w, joinLines (reminderLines rec.reminders))

/-- `predict_next_cycle`; read-only, and an unparseable stored date raises
an uncaught `ValueError`, an out-of-range addition an uncaught
`OverflowError` (both `none`). -/
def predict_next_cycle (u : String) (w : World) : Option (World × String) :=
  match lookup u w.data with
  | none => some (w, userNotFoundMsg)
  | some rec =>
    if lcdFalsy rec.last_cycle_date then some (w, noCycleMsg)
    else
      match rec.last_cycle_date with
      | none => some (w, noCycleMsg)
      | some ds =>
        match parseDate ds with
        | none => none
        | some z =>
          match addDays z rec.cycle_length with
          | none => none
          | some nxt =>
            some (w, "Next cycle for " ++ u ++ " is predicted on "
              ++ formatOrdinal nxt ++ ".")

/-- The symptom lines of `view_symptoms`, in stored (insertion) order. -/
def symptomLines (l : List (String × String)) : List String :=
  l.map fun p => "- " ++ p.1 ++ " (logged on " ++ p.2 ++ ")"

/-- `view_symptoms` (read-only, no sort). -/
def view_symptoms (u : String) (w : World) : Option (World × String) :=
  match lookup u w.data with
  | none => some (w, userNotFoundMsg)
  | some rec =>
    if rec.symptoms = [] then some (w, noSymptomsMsg)
    else some (w, joinLines (symptomLines rec.symptoms))

/-! ## Operation sequences -/

/-- One invocation of any tracker operation, with its arguments
(`today` is the clock value observed by `add_symptom`). -/
inductive Op where
  | reg (u : String)
  | setCycle (u ds : String) (len : Int)
  | addSym (today : Int) (u sym : String)
  | addRem (u r : String) (db : Int)
  | viewRem (u : String)
  | predict (u : String)
  | viewSym (u : String)

/-- Dispatch one operation. -/
def applyOp : Op → World → Option (World × String)
  | .reg u => register_user u
  | .setCycle u ds len => set_cycle_details u ds len
  | .addSym t u sym => add_symptom t u sym
  | .addRem u r db => add_reminder u r db
  | .viewRem u => view_reminders u
  | .predict u => predict_next_cycle u
  | .viewSym u => view_symptoms u

/-- Run a sequence of operations, threading the world; `none` when any
operation raises. -/
def runOps : List Op → World → Option World
  | [], w => some w
  | o :: os, w =>
    match applyOp o w with
    | none => none
    | some (w', _) => runOps os w'

/-- The fresh-start world: empty store, no data file. -/
def world0 : World := ⟨[], none⟩

/-- The read-only operations of the menu. -/
inductive ROp where
  | viewRem (u : String)
  | predict (u : String)
  | viewSym (u : String)

/-- A read-only operation as a general operation. -/
def ROp.toOp : ROp → Op
  | .viewRem u => .viewRem u
  | .predict u => .predict u
  | .viewSym u => .viewSym u

/-- Run a sequence of read-only operations. -/
def runROps (l : List ROp) (w : World) : Option World :=
  runOps (l.map ROp.toOp) w

/-! ## Store lemmas -/

theorem lookup_setRec_self (u : String) (r : UserRecord) (s : Store) :
    lookup u (setRec u r s) = (lookup u s).map fun _ => r := by
  induction s with
  | nil => rfl
  | cons p ps ih =>
    by_cases h : p.1 = u
    · simp [setRec, lookup, h]
    · simpa [setRec, lookup, h] using ih

theorem lookup_setRec_ne (u v : String) (r : UserRecord) (s : Store)
    (h : v ≠ u) : lookup v (setRec u r s) = lookup v s := by
  induction s with
  | nil => rfl
  | cons p ps ih =>
    simp only [setRec, List.map_cons]
    by_cases hp : p.1 = u
    · rw [if_pos hp]
      have hv1 : ¬ p.1 = v := by rw [hp]; exact fun hh => h hh.symm
      show (if p.1 = v then some r else _) = _
      rw [if_neg hv1, lookup, if_neg hv1]
      exact ih
    · rw [if_neg hp]
      show lookup v (p :: _) = _
      by_cases hv : p.1 = v
      · rw [lookup, if_pos hv, lookup, if_pos hv]
      · rw [lookup, if_neg hv, lookup, if_neg hv]
        exact ih

theorem lookup_append_ne (u v : String) (r : UserRecord) (s : Store)
    (h : v ≠ u) : lookup v (s ++ [(u, r)]) = lookup v s := by
  induction s with
  | nil =>
    have : u ≠ v := fun huv => h huv.symm
    simp [lookup, this]
  | cons p ps ih =>
    by_cases hv : p.1 = v
    · simp [lookup, hv]
    · simpa [lookup, hv] using ih

theorem lookup_mem (u : String) (r : UserRecord) (s : Store)
    (h : lookup u s = some r) : (u, r) ∈ s := by
  induction s with
  | nil => simp [lookup] at h
  | cons p ps ih =>
    by_cases hp : p.1 = u
    · simp only [lookup, hp, if_pos] at h
      have : p = (u, r) := by
        cases p
        simp_all
      exact this ▸ List.mem_cons_self _ _
    · simp only [lookup, hp, if_neg, ite_false] at h
      exact List.mem_cons_of_mem _ (ih h)

theorem mem_setRec (u : String) (r : UserRecord) (s : Store)
    (q : String × UserRecord) (h : q ∈ setRec u r s) : q.2 = r ∨ q ∈ s := by
  rcases List.mem_map.mp h with ⟨p, hp, hq⟩
  by_cases hc : p.1 = u
  · left
    rw [← hq]
    simp [hc]
  · right
    rw [← hq]
    simpa [hc] using hp

/-! ## Sort lemmas -/

theorem strLe_go_refl (l : List Char) : strLe.go l l = true := by
  induction l with
  | nil => rfl
  | cons x xs ih => simp [strLe.go, ih]

theorem strLe_refl (a : String) : strLe a a = true :=
  strLe_go_refl a.data

theorem strLe_go_total (l1 l2 : List Char) :
    strLe.go l1 l2 = true ∨ strLe.go l2 l1 = true := by
  induction l1 generalizing l2 with
  | nil => left; rfl
  | cons x xs ih =>
    cases l2 with
    | nil => right; rfl
    | cons y ys =>
      rcases Nat.lt_trichotomy x.toNat y.toNat with h | h | h
      · left; simp [strLe.go, h]
      · have h2 : ¬ x.toNat < y.toNat := by omega
        have h3 : ¬ y.toNat < x.toNat := by omega
        rcases ih ys with hg | hg
        · left; simp [strLe.go, h2, h3, hg]
        · right; simp [strLe.go, h2, h3, hg]
      · right; simp [strLe.go, h]

theorem strLe_total (a b : String) : strLe a b = true ∨ strLe b a = true :=
  strLe_go_total a.data b.data

theorem strLe_go_trans (l1 l2 l3 : List Char)
    (h1 : strLe.go l1 l2 = true) (h2 : strLe.go l2 l3 = true) :
    strLe.go l1 l3 = true := by
  induction l1 generalizing l2 l3 with
  | nil => rfl
  | cons x xs ih =>
    cases l2 with
    | nil => simp [strLe.go] at h1
    | cons y ys =>
      cases l3 with
      | nil => simp [strLe.go] at h2
      | cons z zs =>
        simp only [strLe.go] at h1 h2 ⊢
        by_cases hxy : x.toNat < y.toNat
        · by_cases hyz : y.toNat < z.toNat
          · simp [show x.toNat < z.toNat by omega]
          · by_cases hzy : z.toNat < y.toNat
            · simp [hyz, hzy] at h2
            · simp [show x.toNat < z.toNat by omega]
        · by_cases hyx : y.toNat < x.toNat
          · simp [hxy, hyx] at h1
          · have hxy' : x.toNat = y.toNat := by omega
            by_cases hyz : y.toNat < z.toNat
            · simp [show x.toNat < z.toNat by omega]
            · by_cases hzy : z.toNat < y.toNat
              · simp [hyz, hzy] at h2
              · have hnx : ¬ x.toNat < z.toNat := by omega
                have hnz : ¬ z.toNat < x.toNat := by omega
                simp only [hxy, hyx, if_false, ite_false, if_neg hnx, if_neg hnz,
                  if_neg hyz, if_neg hzy] at h1 h2 ⊢
                exact ih ys zs h1 h2

theorem strLe_trans (a b c : String)
    (h1 : strLe a b = true) (h2 : strLe b c = true) : strLe a c = true :=
  strLe_go_trans a.data b.data c.data h1 h2

theorem insRem_perm (x : String × String) (l : List (String × String)) :
    (insRem x l).Perm (x :: l) := by
  induction l with
  | nil => exact List.Perm.refl _
  | cons y ys ih =>
    by_cases h : strLe x.2 y.2 = true
    · simp [insRem, h]
    · simp only [insRem, h, if_false, ite_false]
      exact (ih.cons y).trans (List.Perm.swap x y ys)

theorem mem_insRem (x a : String × String) (l : List (String × String))
    (h : a ∈ insRem x l) : a = x ∨ a ∈ l := by
  have := (insRem_perm x l).mem_iff.mp h
  simpa using this

theorem sortRem_perm (l : List (String × String)) : (sortRem l).Perm l := by
  induction l with
  | nil => exact List.Perm.refl _
  | cons x xs ih => exact (insRem_perm x (sortRem xs)).trans (ih.cons x)

theorem insRem_sorted (x : String × String) (l : List (String × String))
    (h : l.Pairwise fun p q => strLe p.2 q.2 = true) :
    (insRem x l).Pairwise fun p q => strLe p.2 q.2 = true := by
  induction l with
  | nil => simp [insRem]
  | cons y ys ih =>
    rcases List.pairwise_cons.mp h with ⟨hy, hys⟩
    by_cases hc : strLe x.2 y.2 = true
    · rw [insRem, if_pos hc]
      refine List.pairwise_cons.mpr ⟨?_, h⟩
      intro q hq
      rcases List.mem_cons.mp hq with rfl | hq
      · exact hc
      · exact strLe_trans _ _ _ hc (hy q hq)
    · rw [insRem, if_neg hc]
      refine List.pairwise_cons.mpr ⟨?_, ih hys⟩
      intro q hq
      rcases mem_insRem x q ys hq with rfl | hq
      · rcases strLe_total q.2 y.2 with ht | ht
        · exact absurd ht hc
        · exact ht
      · exact hy q hq

theorem sortRem_sorted (l : List (String × String)) :
    (sortRem l).Pairwise fun p q => strLe p.2 q.2 = true := by
  induction l with
  | nil => simp [sortRem]
  | cons x xs ih => exact insRem_sorted x (sortRem xs) ih

theorem filter_insRem (x : String × String) (l : List (String × String))
    (k : String) :
    (insRem x l).filter (fun p => p.2 == k) =
      if x.2 == k then x :: l.filter (fun p => p.2 == k)
      else l.filter (fun p => p.2 == k) := by
  induction l with
  | nil => by_cases hx : x.2 = k <;> simp [insRem, List.filter_cons, hx]
  | cons y ys ih =>
    by_cases hc : strLe x.2 y.2 = true
    · rw [insRem, if_pos hc]
      by_cases hx : x.2 = k <;> by_cases hy : y.2 = k <;>
        simp [List.filter_cons, hx, hy]
    · rw [insRem, if_neg hc]
      by_cases hx : x.2 = k
      · have hy : ¬ y.2 = k := by
          intro hy
          have : strLe x.2 y.2 = true := by rw [hx, hy]; exact strLe_refl k
          exact hc this
        simp [List.filter_cons, hx, hy, ih]
      · by_cases hy : y.2 = k <;> simp [List.filter_cons, hx, hy, ih]

theorem sortRem_stable (l : List (String × String)) (k : String) :
    (sortRem l).filter (fun p => p.2 == k) = l.filter (fun p => p.2 == k) := by
  induction l with
  | nil => rfl
  | cons x xs ih =>
    rw [sortRem, filter_insRem]
    by_cases hx : x.2 = k <;> simp [List.filter_cons, hx, ih]

/-! ## String order on ISO dates is chronological order

`view_reminders` sorts by the raw date string; because all stored dates are
zero-padded `YYYY-MM-DD` strings of equal width, code-point order on the
strings coincides with lexicographic order on `(year, month, day)`, which is
chronological order in the Gregorian calendar.  The lemmas in this section
prove that coincidence. -/

/-- Three-way comparison on `Nat`. -/
def cmpNat (a b : Nat) : Ordering :=
  if a < b then .lt else if b < a then .gt else .eq

/-- Three-way code-point comparison on character lists. -/
def chCmp : List Char → List Char → Ordering
  | [], [] => .eq
  | [], _ :: _ => .lt
  | _ :: _, [] => .gt
  | x :: xs, y :: ys => (cmpNat x.toNat y.toNat).then (chCmp xs ys)

/-- Chronological (lexicographic) order on `(year, month, day)` triples. -/
def chronoLe (a b : Nat × Nat × Nat) : Prop :=
  a.1 < b.1 ∨ (a.1 = b.1 ∧ (a.2.1 < b.2.1 ∨ (a.2.1 = b.2.1 ∧ a.2.2 ≤ b.2.2)))

theorem Ordering_then_assoc (a b c : Ordering) :
    (a.then b).then c = a.then (b.then c) := by
  cases a <;> cases b <;> rfl

theorem Ordering_then_eq (a : Ordering) : a.then .eq = a := by
  cases a <;> rfl

theorem strLe_go_iff_chCmp (l1 l2 : List Char) :
    strLe.go l1 l2 = true ↔ chCmp l1 l2 ≠ .gt := by
  induction l1 generalizing l2 with
  | nil =>
    cases l2 <;> simp [strLe.go, chCmp]
  | cons x xs ih =>
    cases l2 with
    | nil => simp [strLe.go, chCmp]
    | cons y ys =>
      rcases Nat.lt_trichotomy x.toNat y.toNat with h | h | h
      · have h2 : ¬ y.toNat < x.toNat := by omega
        simp [strLe.go, chCmp, cmpNat, h, h2, Ordering.then]
      · have h1 : ¬ x.toNat < y.toNat := by omega
        have h2 : ¬ y.toNat < x.toNat := by omega
        simpa [strLe.go, chCmp, cmpNat, h1, h2, Ordering.then] using ih ys
      · have h1 : ¬ x.toNat < y.toNat := by omega
        simp [strLe.go, chCmp, cmpNat, h, h1, Ordering.then]

theorem chCmp_append (xs ys u v : List Char) (h : xs.length = ys.length) :
    chCmp (xs ++ u) (ys ++ v) = (chCmp xs ys).then (chCmp u v) := by
  induction xs generalizing ys with
  | nil =>
    cases ys with
    | nil => simp [chCmp, Ordering.then]
    | cons y ys' => simp at h
  | cons x xs' ih =>
    cases ys with
    | nil => simp at h
    | cons y ys' =>
      simp only [List.length_cons, Nat.succ.injEq] at h
      show (cmpNat x.toNat y.toNat).then (chCmp (xs' ++ u) (ys' ++ v))
        = ((cmpNat x.toNat y.toNat).then (chCmp xs' ys')).then (chCmp u v)
      rw [ih ys' h, Ordering_then_assoc]

theorem padDigits_length (w n : Nat) : (padDigits w n).length = w := by
  induction w generalizing n with
  | zero => rfl
  | succ w' ih => simp [padDigits, ih]

theorem toNat_digitChar (r : Nat) (h : r < 10) :
    (Char.ofNat (48 + r)).toNat = 48 + r := by
  interval_cases r <;> decide

theorem cmpNat_add_left (c a b : Nat) : cmpNat (c + a) (c + b) = cmpNat a b := by
  rcases Nat.lt_trichotomy a b with h | h | h
  · rw [cmpNat, if_pos (by omega), cmpNat, if_pos h]
  · subst h
    rw [cmpNat, if_neg (by omega), if_neg (by omega), cmpNat,
      if_neg (by omega), if_neg (by omega)]
  · rw [cmpNat, if_neg (by omega), if_pos (by omega), cmpNat,
      if_neg (by omega), if_pos h]

theorem cmpNat_self (a : Nat) : cmpNat a a = .eq := by
  rw [cmpNat, if_neg (by omega), if_neg (by omega)]

theorem cmpNat_decompose (n1 n2 : Nat) :
    cmpNat n1 n2 = (cmpNat (n1 / 10) (n2 / 10)).then (cmpNat (n1 % 10) (n2 % 10)) := by
  have e1 : n1 = 10 * (n1 / 10) + n1 % 10 := by omega
  have e2 : n2 = 10 * (n2 / 10) + n2 % 10 := by omega
  have m1 : n1 % 10 < 10 := Nat.mod_lt _ (by omega)
  have m2 : n2 % 10 < 10 := Nat.mod_lt _ (by omega)
  rcases Nat.lt_trichotomy (n1 / 10) (n2 / 10) with h | h | h
  · have : n1 < n2 := by omega
    rw [cmpNat, if_pos this, cmpNat, if_pos h]
    rfl
  · have hq : cmpNat (n1 / 10) (n2 / 10) = .eq := by
      rw [cmpNat, if_neg (by omega), if_neg (by omega)]
    rw [hq]
    show cmpNat n1 n2 = cmpNat (n1 % 10) (n2 % 10)
    rcases Nat.lt_trichotomy (n1 % 10) (n2 % 10) with hr | hr | hr
    · rw [cmpNat, if_pos (by omega), cmpNat, if_pos hr]
    · have he : n1 = n2 := by omega
      subst he
      rw [cmpNat_self, cmpNat_self]
    · rw [cmpNat, if_neg (by omega), if_pos (by omega), cmpNat,
        if_neg (by omega), if_pos hr]
  · have : n2 < n1 := by omega
    rw [cmpNat, if_neg (by omega), if_pos this, cmpNat,
      if_neg (by omega), if_pos h]
    rfl

theorem pad_cmp (w n1 n2 : Nat) (h1 : n1 < 10 ^ w) (h2 : n2 < 10 ^ w) :
    chCmp (padDigits w n1) (padDigits w n2) = cmpNat n1 n2 := by
  induction w generalizing n1 n2 with
  | zero =>
    have : n1 = 0 := by omega
    have : n2 = 0 := by omega
    subst_vars
    rfl
  | succ w' ih =>
    have hq1 : n1 / 10 < 10 ^ w' := by
      rw [Nat.div_lt_iff_lt_mul (by omega)]
      calc n1 < 10 ^ (w' + 1) := h1
        _ = 10 ^ w' * 10 := by ring
    have hq2 : n2 / 10 < 10 ^ w' := by
      rw [Nat.div_lt_iff_lt_mul (by omega)]
      calc n2 < 10 ^ (w' + 1) := h2
        _ = 10 ^ w' * 10 := by ring
    have m1 : n1 % 10 < 10 := Nat.mod_lt _ (by omega)
    have m2 : n2 % 10 < 10 := Nat.mod_lt _ (by omega)
    rw [padDigits, padDigits,
      chCmp_append _ _ _ _ (by rw [padDigits_length, padDigits_length]),
      ih _ _ hq1 hq2]
    have hc : chCmp [Char.ofNat (48 + n1 % 10)] [Char.ofNat (48 + n2 % 10)]
        = cmpNat (n1 % 10) (n2 % 10) := by
      show (cmpNat (Char.ofNat (48 + n1 % 10)).toNat (Char.ofNat (48 + n2 % 10)).toNat).then .eq = _
      rw [toNat_digitChar _ m1, toNat_digitChar _ m2, Ordering_then_eq,
        cmpNat_add_left]
    rw [hc, ← cmpNat_decompose]

theorem chCmp_dash_cons (u v : List Char) :
    chCmp ('-' :: u) ('-' :: v) = chCmp u v := by
  show (cmpNat '-'.toNat '-'.toNat).then (chCmp u v) = chCmp u v
  have hdash : cmpNat '-'.toNat '-'.toNat = .eq := by decide
  rw [hdash]
  rfl

theorem dateChars_cmp (y1 m1 d1 y2 m2 d2 : Nat)
    (hy1 : y1 < 10000) (hm1 : m1 < 100) (hd1 : d1 < 100)
    (hy2 : y2 < 10000) (hm2 : m2 < 100) (hd2 : d2 < 100) :
    chCmp (dateChars y1 m1 d1) (dateChars y2 m2 d2)
      = (cmpNat y1 y2).then ((cmpNat m1 m2).then (cmpNat d1 d2)) := by
  rw [dateChars, dateChars,
    chCmp_append _ _ _ _ (by rw [padDigits_length, padDigits_length]),
    pad_cmp 4 y1 y2 hy1 hy2, chCmp_dash_cons,
    chCmp_append _ _ _ _ (by rw [padDigits_length, padDigits_length]),
    pad_cmp 2 m1 m2 hm1 hm2, chCmp_dash_cons, pad_cmp 2 d1 d2 hd1 hd2]

/-- On in-range civil dates, code-point order of the ISO strings implies
chronological order of the dates. -/
theorem strLe_dateString_chrono (y1 m1 d1 y2 m2 d2 : Nat)
    (hy1 : y1 < 10000) (hm1 : m1 < 100) (hd1 : d1 < 100)
    (hy2 : y2 < 10000) (hm2 : m2 < 100) (hd2 : d2 < 100)
    (h : strLe (dateString y1 m1 d1) (dateString y2 m2 d2) = true) :
    chronoLe (y1, m1, d1) (y2, m2, d2) := by
  have hc : chCmp (dateChars y1 m1 d1) (dateChars y2 m2 d2) ≠ .gt :=
    (strLe_go_iff_chCmp _ _).mp h
  rw [dateChars_cmp y1 m1 d1 y2 m2 d2 hy1 hm1 hd1 hy2 hm2 hd2] at hc
  unfold chronoLe
  dsimp only
  rcases Nat.lt_trichotomy y1 y2 with hy | hy | hy
  · exact Or.inl hy
  · subst hy
    rw [cmpNat_self] at hc
    refine Or.inr ⟨rfl, ?_⟩
    have hc' : (cmpNat m1 m2).then (cmpNat d1 d2) ≠ .gt := hc
    rcases Nat.lt_trichotomy m1 m2 with hm | hm | hm
    · exact Or.inl hm
    · subst hm
      rw [cmpNat_self] at hc'
      refine Or.inr ⟨rfl, ?_⟩
      have hc'' : cmpNat d1 d2 ≠ .gt := hc'
      rcases Nat.lt_trichotomy d1 d2 with hd | hd | hd
      · omega
      · omega
      · exfalso
        apply hc''
        rw [cmpNat, if_neg (by omega), if_pos hd]
    · exfalso
      apply hc'
      rw [show cmpNat m1 m2 = .gt by rw [cmpNat, if_neg (by omega), if_pos hm]]
      rfl
  · exfalso
    apply hc
    rw [show cmpNat y1 y2 = .gt by rw [cmpNat, if_neg (by omega), if_pos hy]]
    rfl

/-! ## String helpers -/

theorem string_data_append (a b : String) : (a ++ b).data = a.data ++ b.data :=
  rfl

theorem string_append_empty (a : String) : a ++ "" = a := by
  cases a with
  | mk l =>
    show String.mk (l ++ []) = String.mk l
    rw [List.append_nil]

theorem string_append_assoc (a b c : String) : a ++ b ++ c = a ++ (b ++ c) := by
  cases a; cases b; cases c
  show String.mk (_ ++ _ ++ _) = String.mk (_ ++ (_ ++ _))
  rw [List.append_assoc]

/-- `joinLines` output starts with its first line. -/
theorem joinLines_cons (a : String) (as : List String) :
    ∃ t, joinLines (a :: as) = a ++ t := by
  cases as with
  | nil => exact ⟨"", (string_append_empty a).symm⟩
  | cons b rest => exact ⟨"\n" ++ joinLines (b :: rest), (string_append_assoc _ _ _)⟩

/-- Two strings whose first characters differ are distinct, whatever follows
the first. -/
theorem append_head_ne (a x b : String) (c1 c2 : Char)
    (ha : a.data.head? = some c1) (hb : b.data.head? = some c2)
    (hc : c1 ≠ c2) : a ++ x ≠ b := by
  intro h
  have hd : a.data ++ x.data = b.data := by
    rw [← string_data_append, h]
  have hh : (a.data ++ x.data).head? = b.data.head? := congrArg List.head? hd
  rw [hb] at hh
  cases hA : a.data with
  | nil => rw [hA] at ha; simp at ha
  | cons c cs =>
    rw [hA] at ha hh
    simp only [List.head?_cons, Option.some.injEq] at ha
    rw [List.cons_append] at hh
    simp only [List.head?_cons, Option.some.injEq] at hh
    exact hc (ha ▸ hh)

/-! ## Serialization round-trip -/

theorem decodeEntry_mk (key a b : String) :
    decodeEntry key (.jobj [(key, .jstr a), ("date", .jstr b)]) = some (a, b) := by
  simp [decodeEntry]

theorem decodeEntries_map (key : String) (l : List (String × String)) :
    decodeEntries key
      (l.map fun p => Json.jobj [(key, .jstr p.1), ("date", .jstr p.2)]) = some l := by
  induction l with
  | nil => rfl
  | cons p ps ih => simp [decodeEntries, decodeEntry_mk, ih]

theorem decodeRecord_encodeRecord (r : UserRecord) :
    decodeRecord (encodeRecord r) = some r := by
  obtain ⟨lcd, n, sy, re⟩ := r
  cases lcd with
  | none => simp [encodeRecord, decodeRecord, decodeEntries_map]
  | some s => simp [encodeRecord, decodeRecord, decodeEntries_map]

theorem decodeStore_encodeStore (s : Store) :
    decodeStore (encodeStore s) = some s := by
  rw [encodeStore, decodeStore]
  induction s with
  | nil => rfl
  | cons p ps ih => simp [decodeStoreEntries, decodeRecord_encodeRecord, ih]

/-- Saving then loading reproduces the in-memory store exactly. -/
theorem load_save (w : World) : load_data (save_data w).file = w.data := by
  rw [save_data, load_data]
  simp [decodeStore_encodeStore]

/-! ## Read-only operations do not change the world -/

theorem view_reminders_eq (u : String) (w w' : World) (out : String)
    (h : view_reminders u w = some (w', out)) : w' = w := by
  unfold view_reminders at h
  cases hl : lookup u w.data with
  | none => rw [hl] at h; simp at h; exact h.1.symm
  | some rec =>
    rw [hl] at h
    by_cases he : rec.reminders = [] <;> simp [he] at h <;> exact h.1.symm

theorem view_symptoms_eq (u : String) (w w' : World) (out : String)
    (h : view_symptoms u w = some (w', out)) : w' = w := by
  unfold view_symptoms at h
  cases hl : lookup u w.data with
  | none => rw [hl] at h; simp at h; exact h.1.symm
  | some rec =>
    rw [hl] at h
    by_cases he : rec.symptoms = [] <;> simp [he] at h <;> exact h.1.symm

theorem predict_next_cycle_eq (u : String) (w w' : World) (out : String)
    (h : predict_next_cycle u w = some (w', out)) : w' = w := by
  unfold predict_next_cycle at h
  cases hl : lookup u w.data with
  | none => rw [hl] at h; simp at h; exact h.1.symm
  | some rec =>
    rw [hl] at h
    by_cases hf : lcdFalsy rec.last_cycle_date = true
    · simp [hf] at h
      exact h.1.symm
    · simp [hf] at h
      cases hlcd : rec.last_cycle_date with
      | none => rw [hlcd] at h; simp at h; exact h.1.symm
      | some ds =>
        rw [hlcd] at h
        dsimp only at h
        cases hp : parseDate ds with
        | none => rw [hp] at h; simp at h
        | some z =>
          rw [hp] at h
          dsimp only at h
          cases ha : addDays z rec.cycle_length with
          | none => rw [ha] at h; cases h
          | some nxt =>
            rw [ha] at h
            simp at h
            exact h.1.symm

theorem runROps_eq (l : List ROp) (w w' : World)
    (h : runROps l w = some w') : w' = w := by
  induction l generalizing w with
  | nil =>
    have : some w = some w' := h
    injection this with hh
    exact hh.symm
  | cons o os ih =>
    rw [runROps, List.map_cons, runOps] at h
    cases ho : applyOp o.toOp w with
    | none => rw [ho] at h; cases h
    | some pr =>
      rw [ho] at h
      obtain ⟨w1, out⟩ := pr
      have hw1 : w1 = w := by
        cases o with
        | viewRem u => exact view_reminders_eq u w w1 out ho
        | predict u => exact predict_next_cycle_eq u w w1 out ho
        | viewSym u => exact view_symptoms_eq u w w1 out ho
      subst hw1
      exact ih w1 h

/-! ## Reachability invariant: stored cycle dates always parse

`set_cycle_details` only ever stores a string that passed `strptime`, and
`register_user` stores `None`; so in any world produced by running the
operations, every present `last_cycle_date` parses (in particular it is
not the empty string). -/

/-- Every stored `last_cycle_date` string parses. -/
def Inv (w : World) : Prop :=
  ∀ p ∈ w.data, ∀ s, p.2.last_cycle_date = some s → (parseDate s).isSome = true

theorem inv_world0 : Inv world0 := by
  intro p hp
  simp [world0] at hp

theorem inv_register (u : String) (w w' : World) (out : String)
    (hI : Inv w) (h : register_user u w = some (w', out)) : Inv w' := by
  unfold register_user at h
  cases hl : lookup u w.data with
  | some rec =>
    rw [hl] at h
    simp at h
    exact h.1 ▸ hI
  | none =>
    rw [hl] at h
    simp at h
    intro p hp s hs
    have hdata : w'.data = w.data ++ [(u, ⟨none, 28, [], []⟩)] := by
      rw [← h.1]
      rfl
    rw [hdata] at hp
    rcases List.mem_append.mp hp with hq | hq
    · exact hI p hq s hs
    · simp at hq
      rw [hq] at hs
      simp at hs

theorem inv_set (u ds : String) (len : Int) (w w' : World) (out : String)
    (hI : Inv w) (h : set_cycle_details u ds len w = some (w', out)) : Inv w' := by
  unfold set_cycle_details at h
  cases hl : lookup u w.data with
  | none =>
    rw [hl] at h
    simp at h
    exact h.1 ▸ hI
  | some rec =>
    rw [hl] at h
    dsimp only at h
    cases hp : parseDate ds with
    | none =>
      rw [hp] at h
      simp at h
      exact h.1 ▸ hI
    | some z =>
      rw [hp] at h
      simp at h
      intro p hp' s hs
      have hdata : w'.data =
          setRec u { rec with last_cycle_date := some ds, cycle_length := len } w.data := by
        rw [← h.1]
        rfl
      rw [hdata] at hp'
      rcases mem_setRec _ _ _ _ hp' with hq | hq
      · rw [hq] at hs
        simp at hs
        rw [← hs, hp]
        rfl
      · exact hI p hq s hs

theorem inv_addSym (t : Int) (u sym : String) (w w' : World) (out : String)
    (hI : Inv w) (h : add_symptom t u sym w = some (w', out)) : Inv w' := by
  unfold add_symptom at h
  cases hl : lookup u w.data with
  | none =>
    rw [hl] at h
    simp at h
    exact h.1 ▸ hI
  | some rec =>
    rw [hl] at h
    simp at h
    intro p hp' s hs
    have hdata : w'.data =
        setRec u { rec with symptoms := rec.symptoms ++ [(sym, formatOrdinal t)] } w.data := by
      rw [← h.1]
      rfl
    rw [hdata] at hp'
    rcases mem_setRec _ _ _ _ hp' with hq | hq
    · rw [hq] at hs
      exact hI (u, rec) (lookup_mem u rec w.data hl) s hs
    · exact hI p hq s hs

theorem inv_addRem (u r : String) (db : Int) (w w' : World) (out : String)
    (hI : Inv w) (h : add_reminder u r db w = some (w', out)) : Inv w' := by
  unfold add_reminder at h
  cases hl : lookup u w.data with
  | none =>
    rw [hl] at h
    simp at h
    exact h.1 ▸ hI
  | some rec =>
    rw [hl] at h
    dsimp only at h
    by_cases hf : lcdFalsy rec.last_cycle_date = true
    · rw [if_pos hf] at h
      simp at h
      exact h.1 ▸ hI
    · rw [if_neg hf] at h
      cases hlcd : rec.last_cycle_date with
      | none =>
        rw [hlcd] at h
        simp at h
        exact h.1 ▸ hI
      | some ds =>
        rw [hlcd] at h
        dsimp only at h
        cases hp : parseDate ds with
        | none => rw [hp] at h; cases h
        | some z =>
          rw [hp] at h
          dsimp only at h
          cases ha1 : addDays z rec.cycle_length with
          | none => rw [ha1] at h; cases h
          | some nxt =>
            rw [ha1] at h
            dsimp only at h
            cases ha2 : addDays nxt (-db) with
            | none => rw [ha2] at h; cases h
            | some rd =>
              rw [ha2] at h
              simp at h
              intro p hp' s hs
              have hdata : w'.data =
                  setRec u ⟨some ds, rec.cycle_length, rec.symptoms,
                    rec.reminders ++ [(r, formatOrdinal rd)]⟩ w.data := by
                rw [← h.1]
                rfl
              rw [hdata] at hp'
              rcases mem_setRec _ _ _ _ hp' with hq | hq
              · rw [hq] at hs
                simp at hs
                rw [← hs, hp]
                rfl
              · exact hI p hq s hs

theorem inv_applyOp (o : Op) (w w' : World) (out : String)
    (hI : Inv w) (h : applyOp o w = some (w', out)) : Inv w' := by
  cases o with
  | reg u => exact inv_register u w w' out hI h
  | setCycle u ds len => exact inv_set u ds len w w' out hI h
  | addSym t u sym => exact inv_addSym t u sym w w' out hI h
  | addRem u r db => exact inv_addRem u r db w w' out hI h
  | viewRem u => exact (view_reminders_eq u w w' out h) ▸ hI
  | predict u => exact (predict_next_cycle_eq u w w' out h) ▸ hI
  | viewSym u => exact (view_symptoms_eq u w w' out h) ▸ hI

theorem inv_runOps (l : List Op) (w w' : World)
    (hI : Inv w) (h : runOps l w = some w') : Inv w' := by
  induction l generalizing w with
  | nil =>
    have : some w = some w' := h
    injection this with hh
    exact hh ▸ hI
  | cons o os ih =>
    rw [runOps] at h
    cases ho : applyOp o w with
    | none => rw [ho] at h; cases h
    | some pr =>
      rw [ho] at h
      exact ih pr.1 (inv_applyOp o w pr.1 pr.2 hI (by rw [ho])) h

/-! ## Claim theorems -/

/-- C1 (amended): for every registered username and every valid
`(date, length)` pair whose predicted date `date + length` stays within the
supported datetime years 1-9999, `predict_next_cycle` called after
`set_cycle_details(username, date, length)` returns exactly `date + length`
days (as the formatted ordinal `z + len`), regardless of how many read-only
operations (`view_reminders`, `view_symptoms`, `predict_next_cycle`) ran in
between.  Outside that range the source raises an uncaught `OverflowError`
instead of returning (see the counterexample). -/
theorem claim_C1 {w : World} {u ds : String} {len z : Int} {rec : UserRecord}
    {ops : List ROp} {w1 w2 : World} {out1 : String}
    (hu : lookup u w.data = some rec) (hd : parseDate ds = some z)
    (hrange : minOrdinal ≤ z + len ∧ z + len ≤ maxOrdinal)
    (hset : set_cycle_details u ds len w = some (w1, out1))
    (hro : runROps ops w1 = some w2) :
    predict_next_cycle u w2 =
      some (w2, "Next cycle for " ++ u ++ " is predicted on "
        ++ formatOrdinal (z + len) ++ ".") := by
  have hw2 : w2 = w1 := runROps_eq ops w1 w2 hro
  subst hw2
  unfold set_cycle_details at hset
  rw [hu] at hset
  dsimp only at hset
  rw [hd] at hset
  simp at hset
  obtain ⟨h1, _⟩ := hset
  have hne : ds ≠ "" := by
    intro he
    rw [he] at hd
    have hnone : parseDate "" = none := rfl
    rw [hnone] at hd
    cases hd
  unfold predict_next_cycle
  have hlu : lookup u w2.data =
      some { rec with last_cycle_date := some ds, cycle_length := len } := by
    rw [← h1]
    show lookup u (setRec u _ w.data) = _
    rw [lookup_setRec_self, hu]
    rfl
  rw [hlu]
  dsimp only
  have hfal : lcdFalsy (some ds) = false := decide_eq_false hne
  rw [hfal, if_neg (by decide)]
  rw [hd]
  dsimp only
  rw [addDays_eq_some z len hrange]

/-- C3: for a registered username and an unparseable date string,
`set_cycle_details` returns the invalid-date message and leaves the world
(store and file) untouched. -/
theorem claim_C3 {w : World} {u ds : String} {len : Int} {rec : UserRecord}
    (hu : lookup u w.data = some rec) (hd : parseDate ds = none) :
    set_cycle_details u ds len w = some (w, invalidDateMsg) := by
  unfold set_cycle_details
  rw [hu]
  dsimp only
  rw [hd]

/-- A one-user world: alice registered, nothing set yet. -/
def wC1a : World := ⟨[("alice", ⟨none, 28, [], []⟩)], none⟩

/-- The world after `set_cycle_details("alice", "2024-01-01", 28)` on
`wC1a`. -/
def wC1b : World :=
  ⟨[("alice", ⟨some "2024-01-01", 28, [], []⟩)],
   some (encodeStore [("alice", ⟨some "2024-01-01", 28, [], []⟩)])⟩

/-- Witness for C1: the spec's own scenario (register alice, set
2024-01-01 / 28, some read-only calls, then predict 2024-01-29). -/
theorem claim_C1_witness :
    lookup "alice" wC1a.data = some ⟨none, 28, [], []⟩ ∧
    parseDate "2024-01-01" = some 19723 ∧
    set_cycle_details "alice" "2024-01-01" 28 wC1a
      = some (wC1b, "Cycle details updated for 'alice'.") ∧
    runROps [ROp.viewRem "alice", ROp.predict "alice", ROp.viewSym "alice"] wC1b
      = some wC1b ∧
    predict_next_cycle "alice" wC1b
      = some (wC1b, "Next cycle for " ++ "alice" ++ " is predicted on "
          ++ formatOrdinal (19723 + 28) ++ ".") :=
  ⟨rfl, by decide, rfl, rfl,
    @claim_C1 wC1a "alice" "2024-01-01" 28 19723 ⟨none, 28, [], []⟩
      [ROp.viewRem "alice", ROp.predict "alice", ROp.viewSym "alice"]
      wC1b wC1b "Cycle details updated for 'alice'." rfl (by decide) (by decide)
      rfl rfl⟩

example : formatOrdinal (19723 + 28) = "2024-01-29" := by decide

/-- The store after `set_cycle_details("alice", "2024-01-01", 4000000)`:
the setter does no date arithmetic, so the huge length is accepted. -/
def storeC1ov : Store := [("alice", ⟨some "2024-01-01", 4000000, [], []⟩)]

/-- The world holding `storeC1ov`, as the setter persists it. -/
def wC1ov : World := ⟨storeC1ov, some (encodeStore storeC1ov)⟩

/-- Counterexample to C1 as stated: with the valid date 2024-01-01 and the
accepted integer length 4000000, `set_cycle_details` succeeds, but
`predict_next_cycle` — here with zero intervening read-only operations —
raises an uncaught `OverflowError` (`none`) instead of returning
`date + length` days. -/
theorem claim_C1_counterexample :
    set_cycle_details "alice" "2024-01-01" 4000000 wC1a
      = some (wC1ov, "Cycle details updated for 'alice'.") ∧
    runROps [] wC1ov = some wC1ov ∧
    predict_next_cycle "alice" wC1ov = none :=
  ⟨rfl, rfl, rfl⟩

/-- The two branches of C2: a duplicate registration fails with the
duplicate-user message and changes nothing (in particular the user count);
a fresh registration appends the default record and persists. -/
def RegisterSpec (w : World) (u : String) : Prop :=
  ((lookup u w.data).isSome = true →
    register_user u w = some (w, "Error: User '" ++ u ++ "' already exists.") ∧
    ∀ w' out, register_user u w = some (w', out) → w'.data.length = w.data.length) ∧
  (lookup u w.data = none →
    register_user u w =
      some ({ data := w.data ++ [(u, ⟨none, 28, [], []⟩)],
              file := some (encodeStore (w.data ++ [(u, ⟨none, 28, [], []⟩)])) },
            "User '" ++ u ++ "' registered successfully!"))

/-- C2: `register_user` fails with `DuplicateUser` on a present username,
mutating and persisting nothing and keeping the user count; on an absent
username it creates the default record (`last_cycle_date` absent,
`cycle_length = 28`, empty sequences), persists, and confirms. -/
theorem claim_C2 (w : World) (u : String) : RegisterSpec w u := by
  constructor
  · intro hs
    cases hl : lookup u w.data with
    | none => rw [hl] at hs; simp at hs
    | some rec =>
      have he : register_user u w
          = some (w, "Error: User '" ++ u ++ "' already exists.") := by
        unfold register_user
        rw [hl]
      refine ⟨he, fun w' out h => ?_⟩
      rw [he] at h
      simp at h
      rw [← h.1]
  · intro hn
    unfold register_user
    rw [hn]
    rfl

/-- Witness for C2: both branches on concrete worlds. -/
theorem claim_C2_witness :
    RegisterSpec wC1a "alice" ∧ RegisterSpec world0 "bob" :=
  ⟨claim_C2 wC1a "alice", claim_C2 world0 "bob"⟩

/-- Witness for C3: the spec's scenario, date `"2024-13-40"` on a world with
cycle details already set; the world is returned unchanged. -/
theorem claim_C3_witness :
    lookup "alice" wC1b.data = some ⟨some "2024-01-01", 28, [], []⟩ ∧
    parseDate "2024-13-40" = none ∧
    set_cycle_details "alice" "2024-13-40" 31 wC1b = some (wC1b, invalidDateMsg) :=
  ⟨rfl, by decide,
    @claim_C3 wC1b "alice" "2024-13-40" 31 ⟨some "2024-01-01", 28, [], []⟩
      rfl (by decide)⟩

/-- What C4 asserts of one `add_reminder` call: the entry appended is dated
`last_cycle_date + cycle_length − days_before` (ordinal `z + len − db`,
unconstrained `db`), the store is persisted, and the new entry — and its
formatted line — appear in the sorted list a subsequent `view_reminders`
renders. -/
def ReminderSpec (w : World) (u r : String) (db : Int) (rec : UserRecord)
    (z : Int) : Prop :=
  let dstr := formatOrdinal (z + rec.cycle_length - db)
  let rems := rec.reminders ++ [(r, dstr)]
  let w' : World := ⟨setRec u { rec with reminders := rems } w.data,
                     some (encodeStore (setRec u { rec with reminders := rems } w.data))⟩
  add_reminder u r db w =
      some (w', "Reminder '" ++ r ++ "' added for " ++ u ++ " on " ++ dstr ++ ".") ∧
  (r, dstr) ∈ sortRem rems ∧
  ("- " ++ r ++ " on " ++ dstr) ∈ reminderLines rems ∧
  view_reminders u w' = some (w', joinLines (reminderLines rems))

/-- C4 (amended): for a registered username with a (parseable) stored cycle
date, `add_reminder` appends an entry dated exactly
`last_cycle_date + cycle_length − days_before` for every integer
`days_before` — negative or exceeding the cycle length included, with no
bound checking against the cycle — provided the intermediate next-cycle
date and the reminder date stay within the supported datetime years
1-9999; and that entry shows up in the next `view_reminders` output.
Outside that range the source raises an uncaught `OverflowError` and
appends nothing (see the counterexample). -/
theorem claim_C4 {w : World} {u r ds : String} {db z : Int} {rec : UserRecord}
    (hu : lookup u w.data = some rec) (hlcd : rec.last_cycle_date = some ds)
    (hz : parseDate ds = some z)
    (hr1 : minOrdinal ≤ z + rec.cycle_length ∧ z + rec.cycle_length ≤ maxOrdinal)
    (hr2 : minOrdinal ≤ z + rec.cycle_length - db ∧
      z + rec.cycle_length - db ≤ maxOrdinal) :
    ReminderSpec w u r db rec z := by
  have hne : ds ≠ "" := by
    intro he
    rw [he] at hz
    have hnone : parseDate "" = none := rfl
    rw [hnone] at hz
    cases hz
  have hfal : lcdFalsy (some ds) = false := decide_eq_false hne
  unfold ReminderSpec
  dsimp only
  refine ⟨?_, ?_, ?_, ?_⟩
  · unfold add_reminder
    rw [hu]
    dsimp only
    rw [hlcd, hfal, if_neg (by decide)]
    dsimp only
    rw [hz]
    dsimp only
    rw [addDays_eq_some z rec.cycle_length hr1]
    dsimp only
    have hsum : z + rec.cycle_length + -db = z + rec.cycle_length - db := by ring
    rw [show addDays (z + rec.cycle_length) (-db)
        = some (z + rec.cycle_length - db) by
      rw [addDays_eq_some (z + rec.cycle_length) (-db) (by rw [hsum]; exact hr2),
        hsum]]
    rfl
  · exact (sortRem_perm _).mem_iff.mpr
      (List.mem_append_right _ (List.mem_singleton_self _))
  · exact List.mem_map_of_mem _ ((sortRem_perm _).mem_iff.mpr
      (List.mem_append_right _ (List.mem_singleton_self _)))
  · unfold view_reminders
    rw [show lookup u (setRec u { rec with reminders :=
          rec.reminders ++ [(r, formatOrdinal (z + rec.cycle_length - db))] } w.data)
        = some { rec with reminders :=
          rec.reminders ++ [(r, formatOrdinal (z + rec.cycle_length - db))] } by
      rw [lookup_setRec_self, hu]; rfl]
    dsimp only
    rw [if_neg (fun hcontra => by
      have h2 := (List.append_eq_nil.mp hcontra).2
      cases h2)]

/-- Witness for C4: the spec's scenario — reminder "Buy supplies" five days
before the predicted 2024-01-29 cycle, dated 2024-01-24. -/
theorem claim_C4_witness :
    lookup "alice" wC1b.data = some ⟨some "2024-01-01", 28, [], []⟩ ∧
    parseDate "2024-01-01" = some 19723 ∧
    ReminderSpec wC1b "alice" "Buy supplies" 5 ⟨some "2024-01-01", 28, [], []⟩ 19723 :=
  ⟨rfl, by decide,
    @claim_C4 wC1b "alice" "Buy supplies" "2024-01-01" 5 19723
      ⟨some "2024-01-01", 28, [], []⟩ rfl rfl (by decide) (by decide) (by decide)⟩

/-- Counterexample to C4 as stated: with cycle details 2024-01-01 / 28 set,
`days_before = 1000000` puts the reminder date far below year 1, so the
source raises an uncaught `OverflowError` (`none`) — nothing is appended or
persisted, no reminder entry dated
`last_cycle_date + cycle_length − days_before` ever exists. -/
theorem claim_C4_counterexample :
    lookup "alice" wC1b.data = some ⟨some "2024-01-01", 28, [], []⟩ ∧
    add_reminder "alice" "Buy supplies" 1000000 wC1b = none :=
  ⟨rfl, rfl⟩

/-- What C5 asserts of the two view operations on a registered record:
`view_reminders` renders the reminder entries stably sorted ascending by
date (string order; chronological order on in-range dates), with a distinct
empty indicator, while `view_symptoms` renders symptoms in insertion order,
unsorted, with its own distinct empty indicator. -/
def ViewSpec (w : World) (u : String) (rec : UserRecord) : Prop :=
  (rec.reminders = [] → view_reminders u w = some (w, noRemindersMsg)) ∧
  (rec.reminders ≠ [] →
    view_reminders u w = some (w, joinLines (reminderLines rec.reminders)) ∧
    view_reminders u w ≠ some (w, noRemindersMsg)) ∧
  (sortRem rec.reminders).Perm rec.reminders ∧
  (sortRem rec.reminders).Pairwise (fun p q => strLe p.2 q.2 = true) ∧
  (∀ k, (sortRem rec.reminders).filter (fun p => p.2 == k)
      = rec.reminders.filter (fun p => p.2 == k)) ∧
  (sortRem rec.reminders).Pairwise (fun p q => ∀ y1 m1 d1 y2 m2 d2 : Nat,
    y1 < 10000 → m1 < 100 → d1 < 100 → y2 < 10000 → m2 < 100 → d2 < 100 →
    p.2 = dateString y1 m1 d1 → q.2 = dateString y2 m2 d2 →
    chronoLe (y1, m1, d1) (y2, m2, d2)) ∧
  (rec.symptoms = [] → view_symptoms u w = some (w, noSymptomsMsg)) ∧
  (rec.symptoms ≠ [] →
    view_symptoms u w = some (w, joinLines (symptomLines rec.symptoms)) ∧
    view_symptoms u w ≠ some (w, noSymptomsMsg))

/-- C5: `view_reminders` returns the reminders sorted ascending by date with
a stable sort (equal dates keep insertion order) even when added out of
order; `view_symptoms` preserves logging order and never sorts; each returns
its distinct empty-case indicator on an empty sequence. -/
theorem claim_C5 {w : World} {u : String} {rec : UserRecord}
    (hu : lookup u w.data = some rec) : ViewSpec w u rec := by
  refine ⟨?_, ?_, sortRem_perm _, sortRem_sorted _, sortRem_stable _, ?_, ?_, ?_⟩
  · intro he
    unfold view_reminders
    rw [hu]
    dsimp only
    rw [if_pos he]
  · intro hne0
    have heq : view_reminders u w = some (w, joinLines (reminderLines rec.reminders)) := by
      unfold view_reminders
      rw [hu]
      dsimp only
      rw [if_neg hne0]
    refine ⟨heq, ?_⟩
    rw [heq]
    intro h
    simp only [Option.some.injEq, Prod.mk.injEq] at h
    have hjoin : joinLines (reminderLines rec.reminders) = noRemindersMsg := h.2
    rw [reminderLines] at hjoin
    cases hsr : sortRem rec.reminders with
    | nil =>
      have hlen := (sortRem_perm rec.reminders).length_eq
      rw [hsr] at hlen
      exact hne0 (List.length_eq_zero.mp hlen.symm)
    | cons q qs =>
      rw [hsr, List.map_cons] at hjoin
      obtain ⟨t, ht⟩ := joinLines_cons ("- " ++ q.1 ++ " on " ++ q.2)
        (qs.map fun p => "- " ++ p.1 ++ " on " ++ p.2)
      rw [ht] at hjoin
      exact append_head_ne "- " (q.1 ++ (" on " ++ (q.2 ++ t))) noRemindersMsg
        '-' 'N' rfl rfl (by decide)
        (by rw [← hjoin]; simp only [string_append_assoc])
  · exact (sortRem_sorted rec.reminders).imp
      (fun hpq y1 m1 d1 y2 m2 d2 hy1 hm1 hd1 hy2 hm2 hd2 hp hq =>
        strLe_dateString_chrono y1 m1 d1 y2 m2 d2 hy1 hm1 hd1 hy2 hm2 hd2
          (by rw [← hp, ← hq]; exact hpq))
  · intro he
    unfold view_symptoms
    rw [hu]
    dsimp only
    rw [if_pos he]
  · intro hne0
    have heq : view_symptoms u w = some (w, joinLines (symptomLines rec.symptoms)) := by
      unfold view_symptoms
      rw [hu]
      dsimp only
      rw [if_neg hne0]
    refine ⟨heq, ?_⟩
    rw [heq]
    intro h
    simp only [Option.some.injEq, Prod.mk.injEq] at h
    have hjoin : joinLines (symptomLines rec.symptoms) = noSymptomsMsg := h.2
    rw [symptomLines] at hjoin
    cases hsy : rec.symptoms with
    | nil => exact hne0 hsy
    | cons q qs =>
      rw [hsy, List.map_cons] at hjoin
      obtain ⟨t, ht⟩ := joinLines_cons ("- " ++ q.1 ++ " (logged on " ++ q.2 ++ ")")
        (qs.map fun p => "- " ++ p.1 ++ " (logged on " ++ p.2 ++ ")")
      rw [ht] at hjoin
      exact append_head_ne "- " (q.1 ++ (" (logged on " ++ (q.2 ++ (")" ++ t))))
        noSymptomsMsg '-' 'N' rfl rfl (by decide)
        (by rw [← hjoin]; simp only [string_append_assoc])

/-- A record with reminders added out of date order and two symptoms. -/
def recC5 : UserRecord :=
  ⟨some "2024-01-01", 28,
   [("cramps", "2024-01-05"), ("headache", "2024-01-02")],
   [("buy pads", "2024-02-05"), ("rest", "2024-01-24"), ("tea", "2024-01-24")]⟩

/-- A one-user world holding `recC5`. -/
def wC5 : World := ⟨[("alice", recC5)], none⟩

/-- Witness for C5 on a record whose reminders were added out of order. -/
theorem claim_C5_witness :
    lookup "alice" wC5.data = some recC5 ∧ ViewSpec wC5 "alice" recC5 :=
  ⟨rfl, claim_C5 rfl⟩

/-- C6: for every store built purely through the documented operations
(starting from a fresh process with no data file), `save_data` followed by
`load_data` reproduces the in-memory store exactly — same usernames, same
field values, same sequence order.  (The round-trip in fact holds for every
well-typed store; the reachability hypothesis mirrors the claim's scope.) -/
theorem claim_C6 {ops : List Op} {w : World}
    (_hrun : runOps ops world0 = some w) :
    load_data (save_data w).file = w.data :=
  load_save w

/-- The store after registering alice, setting cycle details 2024-01-01/28,
logging a symptom on 2024-01-05, and adding reminder "buy" 5 days before. -/
def storeC6 : Store :=
  [("alice", ⟨some "2024-01-01", 28, [("cramps", "2024-01-05")],
    [("buy", "2024-01-24")]⟩)]

/-- The world holding `storeC6`, as persisted by its last operation. -/
def wC6 : World := ⟨storeC6, some (encodeStore storeC6)⟩

/-- Witness for C6 on a store built by a four-operation run. -/
theorem claim_C6_witness :
    runOps [Op.reg "alice", Op.setCycle "alice" "2024-01-01" 28,
      Op.addSym 19727 "alice" "cramps", Op.addRem "alice" "buy" 5] world0
      = some wC6 ∧
    load_data (save_data wC6).file = wC6.data :=
  ⟨rfl, @claim_C6 [Op.reg "alice", Op.setCycle "alice" "2024-01-01" 28,
      Op.addSym 19727 "alice" "cramps", Op.addRem "alice" "buy" 5] wC6 rfl⟩

/-- What C7 asserts: every operation other than registration, called with an
absent username, returns the user-not-found message and leaves the world
(store and file) exactly as it was. -/
def NotFoundSpec (w : World) (u : String) : Prop :=
  (∀ ds len, set_cycle_details u ds len w = some (w, userNotFoundMsg)) ∧
  (∀ t sym, add_symptom t u sym w = some (w, userNotFoundMsg)) ∧
  (∀ r db, add_reminder u r db w = some (w, userNotFoundMsg)) ∧
  view_reminders u w = some (w, userNotFoundMsg) ∧
  predict_next_cycle u w = some (w, userNotFoundMsg) ∧
  view_symptoms u w = some (w, userNotFoundMsg)

/-- C7: on a username absent from the store, each non-registration
operation returns `UserNotFound`, mutates nothing, and does not persist. -/
theorem claim_C7 {w : World} {u : String} (h : lookup u w.data = none) :
    NotFoundSpec w u := by
  refine ⟨fun ds len => ?_, fun t sym => ?_, fun r db => ?_, ?_, ?_, ?_⟩
  · unfold set_cycle_details
    rw [h]
  · unfold add_symptom
    rw [h]
  · unfold add_reminder
    rw [h]
  · unfold view_reminders
    rw [h]
  · unfold predict_next_cycle
    rw [h]
  · unfold view_symptoms
    rw [h]

/-- Witness for C7: unregistered "bob" on the fresh store. -/
theorem claim_C7_witness :
    lookup "bob" world0.data = none ∧ NotFoundSpec world0 "bob" :=
  ⟨rfl, claim_C7 rfl⟩

/-- What C8 asserts of a registered record: `add_reminder` and
`predict_next_cycle` return the no-cycle-details message — leaving the
world untouched — exactly when `last_cycle_date` is absent. -/
def NoCycleSpec (w : World) (u : String) (rec : UserRecord) : Prop :=
  (∀ r db, add_reminder u r db w = some (w, noCycleMsg)
      ↔ rec.last_cycle_date = none) ∧
  (predict_next_cycle u w = some (w, noCycleMsg)
      ↔ rec.last_cycle_date = none)

/-- C8: in any world reached by running the operations from a fresh start,
`add_reminder` and `predict_next_cycle` fail with `NoCycleDetails` exactly
when the record's `last_cycle_date` is absent, and in that case neither
mutates the record nor persists (the returned world is the input world). -/
theorem claim_C8 {ops : List Op} {w : World} {u : String} {rec : UserRecord}
    (hrun : runOps ops world0 = some w) (hu : lookup u w.data = some rec) :
    NoCycleSpec w u rec := by
  have hI : Inv w := inv_runOps ops world0 w inv_world0 hrun
  have hparse : ∀ s, rec.last_cycle_date = some s → (parseDate s).isSome = true :=
    hI (u, rec) (lookup_mem u rec w.data hu)
  cases hlcd : rec.last_cycle_date with
  | none =>
    have hadd : ∀ r db, add_reminder u r db w = some (w, noCycleMsg) := by
      intro r db
      unfold add_reminder
      rw [hu]
      dsimp only
      rw [hlcd]
      rfl
    have hpred : predict_next_cycle u w = some (w, noCycleMsg) := by
      unfold predict_next_cycle
      rw [hu]
      dsimp only
      rw [hlcd]
      rfl
    exact ⟨fun r db => ⟨fun _ => hlcd, fun _ => hadd r db⟩,
      ⟨fun _ => hlcd, fun _ => hpred⟩⟩
  | some ds =>
    have hsome : (parseDate ds).isSome = true := hparse ds hlcd
    obtain ⟨z, hz⟩ : ∃ z, parseDate ds = some z := by
      cases hp : parseDate ds with
      | none => rw [hp] at hsome; simp at hsome
      | some z => exact ⟨z, rfl⟩
    have hne : ds ≠ "" := by
      intro he
      rw [he] at hz
      have hnone : parseDate "" = none := rfl
      rw [hnone] at hz
      cases hz
    have hfal : lcdFalsy (some ds) = false := decide_eq_false hne
    constructor
    · intro r db
      constructor
      · intro h
        exfalso
        unfold add_reminder at h
        rw [hu] at h
        dsimp only at h
        rw [hlcd, hfal, if_neg (by decide)] at h
        dsimp only at h
        rw [hz] at h
        dsimp only at h
        cases ha1 : addDays z rec.cycle_length with
        | none => rw [ha1] at h; cases h
        | some nxt =>
          rw [ha1] at h
          dsimp only at h
          cases ha2 : addDays nxt (-db) with
          | none => rw [ha2] at h; cases h
          | some rd =>
            rw [ha2] at h
            simp only [Option.some.injEq, Prod.mk.injEq] at h
            refine append_head_ne "Reminder '"
              (r ++ ("' added for " ++ (u ++ (" on "
                ++ (formatOrdinal rd ++ ".")))))
              noCycleMsg 'R' 'E' rfl rfl (by decide) ?_
            have hmsg := h.2
            simp only [string_append_assoc] at hmsg
            exact hmsg
      · intro hn
        rw [hlcd] at hn
        cases hn
    · constructor
      · intro h
        exfalso
        unfold predict_next_cycle at h
        rw [hu] at h
        dsimp only at h
        rw [hlcd, hfal, if_neg (by decide)] at h
        dsimp only at h
        rw [hz] at h
        dsimp only at h
        cases ha1 : addDays z rec.cycle_length with
        | none => rw [ha1] at h; cases h
        | some nxt =>
          rw [ha1] at h
          simp only [Option.some.injEq, Prod.mk.injEq] at h
          refine append_head_ne "Next cycle for "
            (u ++ (" is predicted on " ++ (formatOrdinal nxt ++ ".")))
            noCycleMsg 'N' 'E' rfl rfl (by decide) ?_
          have hmsg := h.2
          simp only [string_append_assoc] at hmsg
          exact hmsg
      · intro hn
        rw [hlcd] at hn
        cases hn

/-- The store right after registering alice from a fresh start. -/
def storeC8 : Store := [("alice", ⟨none, 28, [], []⟩)]

/-- The world holding `storeC8`, as `register_user` persists it. -/
def wC8 : World := ⟨storeC8, some (encodeStore storeC8)⟩

/-- Witness for C8: freshly registered alice has no cycle details. -/
theorem claim_C8_witness :
    runOps [Op.reg "alice"] world0 = some wC8 ∧
    lookup "alice" wC8.data = some ⟨none, 28, [], []⟩ ∧
    NoCycleSpec wC8 "alice" ⟨none, 28, [], []⟩ :=
  ⟨rfl, rfl, @claim_C8 [Op.reg "alice"] wC8 "alice" ⟨none, 28, [], []⟩ rfl rfl⟩

/-- C9: `register_user` does not enforce non-emptiness of the username:
with `""` absent from the store it succeeds, appends the default record
keyed by `""`, persists, and confirms, exactly as for any other name. -/
theorem claim_C9 {w : World} (h : lookup "" w.data = none) :
    register_user "" w =
      some ({ data := w.data ++ [("", ⟨none, 28, [], []⟩)],
              file := some (encodeStore (w.data ++ [("", ⟨none, 28, [], []⟩)])) },
            "User '' registered successfully!") := by
  unfold register_user
  rw [h]
  rfl

/-- Witness for C9 on the fresh store. -/
theorem claim_C9_witness :
    lookup "" world0.data = none ∧
    register_user "" world0 =
      some ({ data := world0.data ++ [("", ⟨none, 28, [], []⟩)],
              file := some (encodeStore (world0.data ++ [("", ⟨none, 28, [], []⟩)])) },
            "User '' registered successfully!") :=
  ⟨rfl, claim_C9 rfl⟩

/-- What C10 asserts: an operation invoked for username `u` leaves every
other username's record exactly as it was; the read-only operations leave
the whole world unchanged. -/
def FrameSpec (w : World) (u v : String) : Prop :=
  (∀ w' out, register_user u w = some (w', out) →
    lookup v w'.data = lookup v w.data) ∧
  (∀ ds len w' out, set_cycle_details u ds len w = some (w', out) →
    lookup v w'.data = lookup v w.data) ∧
  (∀ t sym w' out, add_symptom t u sym w = some (w', out) →
    lookup v w'.data = lookup v w.data) ∧
  (∀ r db w' out, add_reminder u r db w = some (w', out) →
    lookup v w'.data = lookup v w.data) ∧
  (∀ w' out, view_reminders u w = some (w', out) → w' = w) ∧
  (∀ w' out, predict_next_cycle u w = some (w', out) → w' = w) ∧
  (∀ w' out, view_symptoms u w = some (w', out) → w' = w)

/-- C10: every operation invoked for `u` leaves the records of all other
usernames unchanged; the read-only operations mutate nothing at all. -/
theorem claim_C10 {w : World} {u v : String} (hne : v ≠ u) : FrameSpec w u v := by
  refine ⟨?_, ?_, ?_, ?_,
    fun w' out h => view_reminders_eq u w w' out h,
    fun w' out h => predict_next_cycle_eq u w w' out h,
    fun w' out h => view_symptoms_eq u w w' out h⟩
  · intro w' out h
    unfold register_user at h
    cases hl : lookup u w.data with
    | some rec =>
      rw [hl] at h
      simp at h
      rw [← h.1]
    | none =>
      rw [hl] at h
      simp at h
      rw [← h.1]
      exact lookup_append_ne u v _ w.data hne
  · intro ds len w' out h
    unfold set_cycle_details at h
    cases hl : lookup u w.data with
    | none =>
      rw [hl] at h
      simp at h
      rw [← h.1]
    | some rec =>
      rw [hl] at h
      dsimp only at h
      cases hp : parseDate ds with
      | none =>
        rw [hp] at h
        simp at h
        rw [← h.1]
      | some z =>
        rw [hp] at h
        simp at h
        rw [← h.1]
        exact lookup_setRec_ne u v _ w.data hne
  · intro t sym w' out h
    unfold add_symptom at h
    cases hl : lookup u w.data with
    | none =>
      rw [hl] at h
      simp at h
      rw [← h.1]
    | some rec =>
      rw [hl] at h
      simp at h
      rw [← h.1]
      exact lookup_setRec_ne u v _ w.data hne
  · intro r db w' out h
    unfold add_reminder at h
    cases hl : lookup u w.data with
    | none =>
      rw [hl] at h
      simp at h
      rw [← h.1]
    | some rec =>
      rw [hl] at h
      dsimp only at h
      by_cases hf : lcdFalsy rec.last_cycle_date = true
      · rw [if_pos hf] at h
        simp at h
        rw [← h.1]
      · rw [if_neg hf] at h
        cases hlcd : rec.last_cycle_date with
        | none =>
          rw [hlcd] at h
          simp at h
          rw [← h.1]
        | some ds =>
          rw [hlcd] at h
          dsimp only at h
          cases hp : parseDate ds with
          | none => rw [hp] at h; cases h
          | some z =>
            rw [hp] at h
            dsimp only at h
            cases ha1 : addDays z rec.cycle_length with
            | none => rw [ha1] at h; cases h
            | some nxt =>
              rw [ha1] at h
              dsimp only at h
              cases ha2 : addDays nxt (-db) with
              | none => rw [ha2] at h; cases h
              | some rd =>
                rw [ha2] at h
                simp at h
                rw [← h.1]
                exact lookup_setRec_ne u v _ w.data hne

/-- Witness for C10: operations for alice do not touch bob's view. -/
theorem claim_C10_witness :
    ("bob" : String) ≠ "alice" ∧ FrameSpec wC1b "alice" "bob" :=
  ⟨by decide, claim_C10 (by decide)⟩

end WomensHealthTracker
